import Mathlib

/-!
Verification of the Script Manager scheduler and its SQLite-backed task
store (`script_manager/db.py`, `runner.py`, `scheduler_service.py`).

The two SQLite tables are embedded as Lean lists of rows.  SQLite
behaviours that matter to the embedded operations are made explicit:

* `tasks.name` is declared `TEXT UNIQUE NOT NULL` (db.py, `initialise`);
  SQLite's default `BINARY` collation makes that uniqueness check an
  exact, case-sensitive string comparison, so `INSERT` fails exactly when
  a row with the byte-identical name already exists.
* `runs.task_id` is declared `REFERENCES tasks(id) ON DELETE CASCADE`,
  but `Database.connect` opens every connection with plain
  `sqlite3.connect` and never issues `PRAGMA foreign_keys = ON`.  SQLite
  keeps foreign-key enforcement disabled by default on every new
  connection, so the declared cascade is inert: `DELETE FROM tasks`
  touches only the `tasks` table and leaves `runs` rows in place.
* `AUTOINCREMENT` row ids are modelled as one greater than the maximum
  id present, which keeps fresh ids distinct from all existing ones.
* Timestamps are stored as ISO-8601 `TEXT` (`isoformat`), on which
  SQLite's `ORDER BY` is lexicographic string comparison; lexicographic
  order on these fixed-width strings coincides with chronological order.
-/

namespace ScriptManager

/-- A row of the `tasks` table (`models.Task` / schema in `initialise`). -/
structure Task where
  id : Nat
  name : String
  script_path : String
  cron : String
  python_executable : Option String
  working_directory : Option String
  created_at : String
deriving DecidableEq

/-- A row of the `runs` table (`models.TaskRun` without the denormalised
`task_name`, which the schema does not store). -/
structure Run where
  id : Nat
  task_id : Nat
  started_at : String
  finished_at : Option String
  status : String
  exit_code : Option Int
  stdout_path : Option String
  stderr_path : Option String
  message : Option String
deriving DecidableEq

/-- Next `AUTOINCREMENT` id for the `tasks` table. -/
def nextTaskId (tasks : List Task) : Nat :=
  (tasks.foldr (fun t m => max t.id m) 0) + 1

/-- Next `AUTOINCREMENT` id for the `runs` table. -/
def nextRunId (runs : List Run) : Nat :=
  (runs.foldr (fun r m => max r.id m) 0) + 1

/-- `Database.add_task` (db.py:62-89): `INSERT INTO tasks ...`.  The
`UNIQUE` constraint on `name` (default `BINARY` collation, so exact
string equality) aborts the insert with an `IntegrityError` when a task
with the byte-identical name exists; the transaction is rolled back and
the store is unchanged (`none` in the second component).  Otherwise the
new row is appended and returned. -/
def addTask (tasks : List Task) (name script_path cron : String)
    (python_executable working_directory : Option String) (created_at : String) :
    List Task × Option Task :=
  if tasks.any (fun u => u.name == name) then
    (tasks, none)
  else
    let t : Task :=
      ⟨nextTaskId tasks, name, script_path, cron, python_executable,
        working_directory, created_at⟩
    (tasks ++ [t], some t)

/-- `Database.get_task` (db.py:98-101): `SELECT * FROM tasks WHERE name = ?`
with `fetchone`, i.e. the first row whose name matches exactly. -/
def getTask (tasks : List Task) (name : String) : Option Task :=
  tasks.find? (fun t => t.name == name)

/-- `Database.remove_task` (db.py:108-112): `DELETE FROM tasks WHERE
name = ?`, returning `rowcount > 0`.  Because `connect` never enables
`PRAGMA foreign_keys`, the schema's `ON DELETE CASCADE` does not run:
the `runs` table is passed through untouched. -/
def removeTask (tasks : List Task) (runs : List Run) (name : String) :
    (List Task × List Run) × Bool :=
  ((tasks.filter (fun t => !(t.name == name)), runs),
    tasks.any (fun t => t.name == name))

/-- `Database.record_run_start` (db.py:114-138): insert a `runs` row with
status `"running"`, null `finished_at` and null `exit_code`; returns the
fresh row id (`lastrowid`). -/
def recordRunStart (runs : List Run) (taskId : Nat) (startedAt : String)
    (stdoutPath stderrPath : Option String) (msg : Option String) :
    List Run × Nat :=
  let rid := nextRunId runs
  (runs ++ [⟨rid, taskId, startedAt, none, "running", none, stdoutPath, stderrPath, msg⟩],
    rid)

/-- `Database.record_run_end` (db.py:140-163): `UPDATE runs SET
finished_at = ?, status = ?, exit_code = ?, message = COALESCE(?, message)
WHERE id = ?`. -/
def recordRunEnd (runs : List Run) (runId : Nat) (finishedAt status : String)
    (exitCode : Option Int) (msg : Option String) : List Run :=
  runs.map (fun r =>
    if r.id = runId then
      { r with
          finished_at := some finishedAt
          status := status
          exit_code := exitCode
          message := match msg with
            | some m => some m
            | none => r.message }
    else r)

/-- `runner.TaskExecutionError` (runner.py:14-15): "Raised when a task
fails before it can start", carrying the originating exception's text. -/
inductive TaskExecutionError where
  | mk (message : String)
deriving DecidableEq

/-- Outcome of the subprocess launch attempt in `run_task`
(runner.py:38-48): either `Popen`/`wait` completes with an exit code, or
launching raises an exception whose text is captured. -/
inductive LaunchResult where
  | exited (code : Int)
  | raised (exc : String)
deriving DecidableEq

/-- `runner.run_task` (runner.py:18-66).  The clock reads
(`datetime.utcnow`) and the subprocess outcome are parameters; the file
system writes are not modelled (only the paths recorded in the store
are).  The run-start row is written before the launch; on a launch
exception the run-end row is written with status `"failed"`, null exit
code and the exception message, and `TaskExecutionError` is raised; on
a completed process the run-end row carries the real exit code and
status `"success"` iff it is `0`, with no exception. -/
def runTask (runs : List Run) (task : Task) (dataDir timestamp : String)
    (startedAt finishedAt : String) (launch : LaunchResult) :
    List Run × Except TaskExecutionError Unit :=
  let stdoutPath := dataDir ++ "/logs/" ++ task.name ++ "/" ++ timestamp ++ ".stdout.log"
  let stderrPath := dataDir ++ "/logs/" ++ task.name ++ "/" ++ timestamp ++ ".stderr.log"
  let started := recordRunStart runs task.id startedAt (some stdoutPath) (some stderrPath) none
  match launch with
  | .raised exc =>
      (recordRunEnd started.1 started.2 finishedAt "failed" none (some exc),
        .error (TaskExecutionError.mk exc))
  | .exited code =>
      (recordRunEnd started.1 started.2 finishedAt
          (if code = 0 then "success" else "failed") (some code) none,
        .ok ())

/-- `SchedulerService._run_task_job` (scheduler_service.py:97-108).  The
job closure receives only the task *name* (installed with
`args=[task.name]`) and re-reads the definition from the store via
`get_task`; a missing task is a no-op.  The `try/except Exception`
around `run_task` swallows every error, so the function always returns
normally — modelled by a total function whose Boolean result records
whether a subprocess launch was attempted. -/
def runTaskJob (tasks : List Task) (runs : List Run) (name : String)
    (dataDir timestamp startedAt finishedAt : String) (launch : LaunchResult) :
    List Run × Bool :=
  match getTask tasks name with
  | none => (runs, false)
  | some task =>
      ((runTask runs task dataDir timestamp startedAt finishedAt launch).1, true)

/-- The `FROM runs JOIN tasks ON tasks.id = runs.task_id` of
`Database.recent_runs` (db.py:165-180): each run row is paired with the
name of its owning task; orphaned run rows (no matching task) are
dropped by the inner join. -/
def joinRuns (tasks : List Task) (runs : List Run) : List (Run × String) :=
  runs.filterMap (fun r =>
    (tasks.find? (fun t => t.id == r.task_id)).map (fun t => (r, t.name)))

/-- SQLite's `BINARY` collation on `TEXT`: lexicographic byte
comparison (memcmp), which on the stored ISO-8601 timestamps is
chronological order.  Character-list lexicographic order coincides with
UTF-8 byte order. -/
def charListLe : List Char → List Char → Bool
  | [], _ => true
  | _ :: _, [] => false
  | a :: as, b :: bs =>
      if a < b then true
      else if b < a then false
      else charListLe as bs

/-- `TEXT` comparison used by `ORDER BY runs.started_at`. -/
def strLe (a b : String) : Bool := charListLe a.data b.data

/-- Insertion step of `ORDER BY runs.started_at DESC`. -/
def insertByStartDesc (p : Run × String) : List (Run × String) → List (Run × String)
  | [] => [p]
  | q :: qs =>
      if strLe q.1.started_at p.1.started_at then p :: q :: qs
      else q :: insertByStartDesc p qs

/-- `ORDER BY runs.started_at DESC` as an insertion sort. -/
def sortByStartDesc : List (Run × String) → List (Run × String)
  | [] => []
  | p :: ps => insertByStartDesc p (sortByStartDesc ps)

/-- The `WHERE tasks.name = ?` clause of `Database.recent_runs`, which
is added only under Python truthiness (`if task_name:`, db.py:170), so
both `None` and the empty string leave the query unfiltered. -/
def filteredRuns (tasks : List Task) (runs : List Run) (taskName : Option String) :
    List (Run × String) :=
  match taskName with
  | some s =>
      if s = "" then joinRuns tasks runs
      else (joinRuns tasks runs).filter (fun p => p.2 == s)
  | none => joinRuns tasks runs

/-- `Database.recent_runs` (db.py:165-180): join, optional name filter,
`ORDER BY runs.started_at DESC LIMIT ?`. -/
def recentRuns (tasks : List Task) (runs : List Run) (limit : Nat)
    (taskName : Option String) : List (Run × String) :=
  (sortByStartDesc (filteredRuns tasks runs taskName)).take limit

/-- Actions `_synchronise_jobs` performs on the APScheduler instance:
`add_job`, `remove_job`, `reschedule_job` (scheduler_service.py:59-95). -/
inductive SchedAction where
  | install (name : String)
  | remove (name : String)
  | reschedule (name : String)
deriving DecidableEq

/-- Lookup in the `_scheduled_cron` dict, modelled as an association
list from task name to the cron expression currently scheduled. -/
def lookupName (n : String) : List (String × String) → Option String
  | [] => none
  | p :: ps => if p.1 = n then some p.2 else lookupName n ps

/-- The store's name-to-cron mapping (`{task.name: task.cron}` built
from `list_tasks`). -/
def taskMap (tasks : List Task) : List (String × String) :=
  tasks.map (fun t => (t.name, t.cron))

/-- The add-or-update half of `_synchronise_jobs`
(scheduler_service.py:69-81): for each stored task in order, install a
job when the name is unscheduled (dict insertion appends), do nothing
when the scheduled cron matches, and reschedule in place (dict value
update, position preserved) when it differs.  Returns the updated
`_scheduled_cron` map and the actions issued. -/
def addJobs : List Task → List (String × String) → List (String × String) × List SchedAction
  | [], sched => (sched, [])
  | t :: ts, sched =>
      match lookupName t.name sched with
      | none =>
          let r := addJobs ts (sched ++ [(t.name, t.cron)])
          (r.1, SchedAction.install t.name :: r.2)
      | some c =>
          if c = t.cron then addJobs ts sched
          else
            let r := addJobs ts
              (sched.map (fun p => if p.1 = t.name then (t.name, t.cron) else p))
            (r.1, SchedAction.reschedule t.name :: r.2)

/-- Membership test `name not in tasks` on the stored task names
(scheduler_service.py:64). -/
def hasName (names : List String) (n : String) : Bool :=
  names.any (fun m => m == n)

/-- `SchedulerService._synchronise_jobs` (scheduler_service.py:59-81):
first remove the jobs of deleted tasks (iterating the scheduled names
and dropping those absent from the store), then add/update jobs for
every stored task.  Returns the new `_scheduled_cron` map and the list
of scheduler actions performed during the pass, removals first. -/
def synchroniseJobs (tasks : List Task) (sched : List (String × String)) :
    List (String × String) × List SchedAction :=
  ((addJobs tasks (sched.filter (fun p => hasName (tasks.map Task.name) p.1))).1,
    (sched.filter (fun p => !(hasName (tasks.map Task.name) p.1))).map
        (fun p => SchedAction.remove p.1) ++
      (addJobs tasks (sched.filter (fun p => hasName (tasks.map Task.name) p.1))).2)

/-- The `max_instances=1` argument `_add_job` passes to
`scheduler.add_job` (scheduler_service.py:94). -/
def maxInstances : Nat := 1

/-- Number of `runs` rows in `"running"` status for one task. -/
def runningCount (runs : List Run) (taskId : Nat) : Nat :=
  (runs.filter (fun r => r.task_id == taskId && r.status == "running")).length

/-- Events of the per-task execution model: a cron trigger fires for a
task, or an in-flight execution of a task completes. -/
inductive FireEvent where
  | fire (taskId : Nat) (startedAt : String)
  | finish (taskId : Nat) (finishedAt : String) (code : Int)

/-- Modelled from the spec: the overlap gate of the trigger runtime is
not in this repository (APScheduler enforces the `max_instances=1`
constraint installed by `_add_job`, scheduler_service.py:94) — §5:
exclusivity is implemented as "reject if max concurrent instances for
this job id already reached", and a fire arriving while the same task's
prior run is unfinished is dropped rather than queued.  A permitted
fire starts a run (`record_run_start`, status `"running"`). -/
def fireStep (runs : List Run) (taskId : Nat) (startedAt : String) : List Run :=
  if maxInstances ≤ runningCount runs taskId then runs
  else (recordRunStart runs taskId startedAt none none none).1

/-- Completion of an in-flight run: the first `"running"` row of the
task is closed by `record_run_end` with the process's exit code, as at
runner.py:59-66. -/
def finishStep (runs : List Run) (taskId : Nat) (finishedAt : String) (code : Int) :
    List Run :=
  match runs.find? (fun r => r.task_id == taskId && r.status == "running") with
  | none => runs
  | some r =>
      recordRunEnd runs r.id finishedAt (if code = 0 then "success" else "failed")
        (some code) none

/-- One scheduler event. -/
def execStep (runs : List Run) : FireEvent → List Run
  | .fire taskId startedAt => fireStep runs taskId startedAt
  | .finish taskId finishedAt code => finishStep runs taskId finishedAt code

/-- The run history produced by a sequence of fire/finish events
starting from an empty `runs` table. -/
def applyEvents (events : List FireEvent) : List Run :=
  events.foldl execStep []

end ScriptManager

namespace ScriptManager

theorem mem_le_foldr_max (runs : List Run) (r : Run) (h : r ∈ runs) :
    r.id ≤ runs.foldr (fun r m => max r.id m) 0 := by
  induction runs with
  | nil => cases h
  | cons a l ih =>
    rcases List.mem_cons.mp h with rfl | h
    · exact Nat.le_max_left _ _
    · exact le_trans (ih h) (Nat.le_max_right _ _)

theorem mem_id_ne_nextRunId (runs : List Run) (r : Run) (h : r ∈ runs) :
    r.id ≠ nextRunId runs := by
  have := mem_le_foldr_max runs r h
  unfold nextRunId
  omega

theorem map_update_id_eq_self (l : List Run) (rid : Nat) (f : Run → Run)
    (h : ∀ r ∈ l, r.id ≠ rid) :
    l.map (fun r => if r.id = rid then f r else r) = l := by
  induction l with
  | nil => rfl
  | cons a t ih =>
    simp only [List.map_cons]
    rw [if_neg (h a (List.mem_cons_self a t)),
      ih (fun r hr => h r (List.mem_cons_of_mem a hr))]

/-- Updating the fresh row appended by `recordRunStart` touches no
pre-existing row. -/
theorem recordRunEnd_append_fresh (runs : List Run) (row : Run) (rid : Nat)
    (finishedAt status : String) (exitCode : Option Int) (msg : Option String)
    (hrow : row.id = rid) (hfresh : ∀ r ∈ runs, r.id ≠ rid) :
    recordRunEnd (runs ++ [row]) rid finishedAt status exitCode msg =
      runs ++ [{ row with
          finished_at := some finishedAt
          status := status
          exit_code := exitCode
          message := match msg with
            | some m => some m
            | none => row.message }] := by
  unfold recordRunEnd
  rw [List.map_append, map_update_id_eq_self runs rid _ hfresh]
  simp [hrow]

theorem any_name_eq_true_iff (tasks : List Task) (name : String) :
    tasks.any (fun u => u.name == name) = true ↔ ∃ u ∈ tasks, u.name = name := by
  simp [List.any_eq_true]

/-- C1 (counterexample): name uniqueness is not case-insensitive.  With a
store containing the single task `"demo"`, adding `"DEMO"` — equal up to
letter case — succeeds instead of failing, and the store then holds two
tasks rather than one. -/
theorem addTask_case_clash_accepted :
    ("DEMO".data.map Char.toLower = "demo".data.map Char.toLower) ∧
    (addTask [⟨1, "demo", "/tmp/demo.py", "0 0 * * *", none, none,
        "2024-01-01T00:00:00"⟩] "DEMO" "/tmp/demo2.py" "0 0 * * *" none none
        "2024-01-02T00:00:00").2 ≠ none ∧
    (addTask [⟨1, "demo", "/tmp/demo.py", "0 0 * * *", none, none,
        "2024-01-01T00:00:00"⟩] "DEMO" "/tmp/demo2.py" "0 0 * * *" none none
        "2024-01-02T00:00:00").1.length = 2 := by
  refine ⟨by decide, by decide, by decide⟩

/-- C1 (amended): name uniqueness is enforced case-sensitively at
creation: `add_task` fails exactly when the store already holds a task
with the byte-identical name, and then leaves the store unchanged; when
no task has exactly that name (even if one matches up to letter case)
the new task is appended. -/
theorem addTask_unique_case_sensitive (tasks : List Task)
    (name script cron : String) (py wd : Option String) (created : String) :
    ((addTask tasks name script cron py wd created).2 = none ↔
        ∃ u ∈ tasks, u.name = name)
    ∧ ((addTask tasks name script cron py wd created).2 = none →
        (addTask tasks name script cron py wd created).1 = tasks)
    ∧ ((∀ u ∈ tasks, u.name ≠ name) →
        (addTask tasks name script cron py wd created).1 =
          tasks ++ [⟨nextTaskId tasks, name, script, cron, py, wd, created⟩]) := by
  cases hb : tasks.any (fun u => u.name == name)
  · have hno : ¬ ∃ u ∈ tasks, u.name = name := by
      intro hex
      rw [← any_name_eq_true_iff tasks name] at hex
      rw [hb] at hex
      exact Bool.false_ne_true hex
    refine ⟨?_, ?_, ?_⟩
    · simp [addTask, hb, hno]
    · intro h
      simp [addTask, hb] at h
    · intro _
      simp [addTask, hb]
  · have hyes : ∃ u ∈ tasks, u.name = name := (any_name_eq_true_iff tasks name).mp hb
    refine ⟨?_, ?_, ?_⟩
    · simp [addTask, hb, hyes]
    · intro _
      simp [addTask, hb]
    · intro h
      rcases hyes with ⟨u, hu, hname⟩
      exact absurd hname (h u hu)

/-- C1 witness for the amended theorem at a concrete store. -/
theorem addTask_unique_case_sensitive_witness :
    (addTask [⟨1, "demo", "/tmp/demo.py", "0 0 * * *", none, none, "t0"⟩]
        "demo" "/tmp/x.py" "1 2 3 4 5" none none "t1").2 = none :=
  (addTask_unique_case_sensitive
      [⟨1, "demo", "/tmp/demo.py", "0 0 * * *", none, none, "t0"⟩]
      "demo" "/tmp/x.py" "1 2 3 4 5" none none "t1").1.mpr
    ⟨⟨1, "demo", "/tmp/demo.py", "0 0 * * *", none, none, "t0"⟩, by simp, rfl⟩

/-- C2: evaluating `remove_task` at the failing input.  With one task
(id 1, name `"demo"`) owning one finished run row, `remove_task "demo"`
returns `true` and deletes the task, but — because `connect` never
enables `PRAGMA foreign_keys`, leaving the schema's `ON DELETE CASCADE`
inert — the run row with `task_id = 1` survives as an orphan, so a runs
row still references the deleted task's id. -/
theorem removeTask_leaves_orphan_run :
    (removeTask [⟨1, "demo", "/tmp/demo.py", "0 0 * * *", none, none,
        "2024-01-01T00:00:00"⟩]
      [⟨1, 1, "2024-01-02T00:00:00", some "2024-01-02T00:00:05", "success",
        some 0, none, none, none⟩] "demo").2 = true
    ∧ (removeTask [⟨1, "demo", "/tmp/demo.py", "0 0 * * *", none, none,
        "2024-01-01T00:00:00"⟩]
      [⟨1, 1, "2024-01-02T00:00:00", some "2024-01-02T00:00:05", "success",
        some 0, none, none, none⟩] "demo").1.1 = []
    ∧ ∃ r ∈ (removeTask [⟨1, "demo", "/tmp/demo.py", "0 0 * * *", none, none,
        "2024-01-01T00:00:00"⟩]
      [⟨1, 1, "2024-01-02T00:00:00", some "2024-01-02T00:00:05", "success",
        some 0, none, none, none⟩] "demo").1.2, r.task_id = 1 := by
  refine ⟨by decide, by decide, ?_⟩
  refine ⟨⟨1, 1, "2024-01-02T00:00:00", some "2024-01-02T00:00:05", "success",
    some 0, none, none, none⟩, by decide, rfl⟩

/-- C9: `remove_task` returns `true` exactly when a task with the given
name exists, deletes every task of that name, and a second call on the
resulting store returns `false` and changes nothing. -/
theorem removeTask_true_iff_existed (tasks : List Task) (runs : List Run)
    (name : String) :
    ((removeTask tasks runs name).2 = true ↔ ∃ t ∈ tasks, t.name = name)
    ∧ (∀ t ∈ (removeTask tasks runs name).1.1, t.name ≠ name)
    ∧ (removeTask (removeTask tasks runs name).1.1
        (removeTask tasks runs name).1.2 name).2 = false
    ∧ (removeTask (removeTask tasks runs name).1.1
        (removeTask tasks runs name).1.2 name).1 =
          (removeTask tasks runs name).1 := by
  refine ⟨?_, ?_, ?_, ?_⟩
  · simp [removeTask, List.any_eq_true]
  · intro t ht
    have := List.mem_filter.mp ht
    simpa using this.2
  · simp only [removeTask]
    rw [List.any_eq_false]
    intro t ht
    have := List.mem_filter.mp ht
    simpa using this.2
  · simp only [removeTask, List.filter_filter]
    congr 1
    apply List.filter_congr
    intro t _
    simp [Bool.and_self]

/-- C9 witness at a concrete store: removing `"demo"` reports `true`,
and a second removal reports `false` on an unchanged store. -/
theorem removeTask_true_iff_existed_witness :
    (removeTask [⟨1, "demo", "/tmp/demo.py", "0 0 * * *", none, none, "t0"⟩]
        [] "demo").2 = true :=
  (removeTask_true_iff_existed
      [⟨1, "demo", "/tmp/demo.py", "0 0 * * *", none, none, "t0"⟩] [] "demo").1.mpr
    ⟨⟨1, "demo", "/tmp/demo.py", "0 0 * * *", none, none, "t0"⟩, by simp, rfl⟩

/-- C5: when the subprocess launches and exits with code `e`, `run_task`
appends exactly one run row whose run-end fields carry exit code `e` and
status `"success"` iff `e = 0` (`"failed"` otherwise), leaves every
pre-existing row untouched, and raises no exception. -/
theorem runTask_exit_code_recorded (runs : List Run) (task : Task)
    (dataDir timestamp startedAt finishedAt : String) (code : Int) :
    (runTask runs task dataDir timestamp startedAt finishedAt
        (.exited code)).2 = .ok ()
    ∧ (runTask runs task dataDir timestamp startedAt finishedAt
        (.exited code)).1 =
      runs ++ [⟨nextRunId runs, task.id, startedAt, some finishedAt,
        (if code = 0 then "success" else "failed"), some code,
        some (dataDir ++ "/logs/" ++ task.name ++ "/" ++ timestamp ++ ".stdout.log"),
        some (dataDir ++ "/logs/" ++ task.name ++ "/" ++ timestamp ++ ".stderr.log"),
        none⟩] := by
  refine ⟨rfl, ?_⟩
  exact recordRunEnd_append_fresh runs
    ⟨nextRunId runs, task.id, startedAt, none, "running", none,
      some (dataDir ++ "/logs/" ++ task.name ++ "/" ++ timestamp ++ ".stdout.log"),
      some (dataDir ++ "/logs/" ++ task.name ++ "/" ++ timestamp ++ ".stderr.log"),
      none⟩
    (nextRunId runs) finishedAt (if code = 0 then "success" else "failed")
    (some code) none rfl (fun r hr => mem_id_ne_nextRunId runs r hr)

/-- C6: when the subprocess cannot be started, `run_task` appends one
run row whose run-end fields are null exit code, status `"failed"` and
the exception message, and raises `TaskExecutionError`; the scheduler's
fire-dispatch path (`_run_task_job`) invokes `run_task` inside a
catch-all and still returns normally with the failure recorded, so the
error never escapes to the reconciliation loop. -/
theorem runTask_launch_failure (runs : List Run) (task : Task)
    (dataDir timestamp startedAt finishedAt exc : String) :
    (runTask runs task dataDir timestamp startedAt finishedAt
        (.raised exc)).2 = .error (TaskExecutionError.mk exc)
    ∧ (runTask runs task dataDir timestamp startedAt finishedAt
        (.raised exc)).1 =
      runs ++ [⟨nextRunId runs, task.id, startedAt, some finishedAt,
        "failed", none,
        some (dataDir ++ "/logs/" ++ task.name ++ "/" ++ timestamp ++ ".stdout.log"),
        some (dataDir ++ "/logs/" ++ task.name ++ "/" ++ timestamp ++ ".stderr.log"),
        some exc⟩]
    ∧ (∀ tasks name, getTask tasks name = some task →
        runTaskJob tasks runs name dataDir timestamp startedAt finishedAt
            (.raised exc) =
          ((runTask runs task dataDir timestamp startedAt finishedAt
              (.raised exc)).1, true)) := by
  refine ⟨rfl, ?_, ?_⟩
  · exact recordRunEnd_append_fresh runs
      ⟨nextRunId runs, task.id, startedAt, none, "running", none,
        some (dataDir ++ "/logs/" ++ task.name ++ "/" ++ timestamp ++ ".stdout.log"),
        some (dataDir ++ "/logs/" ++ task.name ++ "/" ++ timestamp ++ ".stderr.log"),
        none⟩
      (nextRunId runs) finishedAt "failed" none (some exc) rfl
      (fun r hr => mem_id_ne_nextRunId runs r hr)
  · intro tasks name h
    unfold runTaskJob
    rw [h]

/-- C6 witness: a concrete launch failure dispatched through
`_run_task_job` returns normally with the failure written to history. -/
theorem runTask_launch_failure_witness :
    runTaskJob [⟨1, "demo", "/tmp/demo.py", "0 0 * * *", none, none, "t0"⟩]
        [] "demo" "/data" "20240101_000000" "2024-01-01T00:00:00"
        "2024-01-01T00:00:01" (.raised "interpreter missing") =
      ((runTask [] ⟨1, "demo", "/tmp/demo.py", "0 0 * * *", none, none, "t0"⟩
          "/data" "20240101_000000" "2024-01-01T00:00:00"
          "2024-01-01T00:00:01" (.raised "interpreter missing")).1, true) :=
  (runTask_launch_failure [] ⟨1, "demo", "/tmp/demo.py", "0 0 * * *", none, none, "t0"⟩
      "/data" "20240101_000000" "2024-01-01T00:00:00" "2024-01-01T00:00:01"
      "interpreter missing").2.2
    [⟨1, "demo", "/tmp/demo.py", "0 0 * * *", none, none, "t0"⟩] "demo" (by decide)

/-- C8: when a trigger fires for a name no longer present in the store,
the dispatch path — which re-reads the definition through `get_task` on
the live store — is a no-op: the runs table is unchanged and no
subprocess launch is attempted. -/
theorem runTaskJob_missing_task_noop (tasks : List Task) (runs : List Run)
    (name dataDir timestamp startedAt finishedAt : String) (launch : LaunchResult)
    (h : getTask tasks name = none) :
    runTaskJob tasks runs name dataDir timestamp startedAt finishedAt launch =
      (runs, false) := by
  unfold runTaskJob
  rw [h]

/-- C8 witness: firing for a deleted name against a concrete store. -/
theorem runTaskJob_missing_task_noop_witness :
    runTaskJob [⟨1, "other", "/tmp/other.py", "0 0 * * *", none, none, "t0"⟩]
        [] "demo" "/data" "20240101_000000" "2024-01-01T00:00:00"
        "2024-01-01T00:00:01" (.exited 0) = ([], false) :=
  runTaskJob_missing_task_noop
    [⟨1, "other", "/tmp/other.py", "0 0 * * *", none, none, "t0"⟩] []
    "demo" "/data" "20240101_000000" "2024-01-01T00:00:00"
    "2024-01-01T00:00:01" (.exited 0) (by decide)

/-- C10: `record_run_end` is frame-bounded: each row keeps its identity
and position; a row whose id differs from the target is unchanged; the
target row changes only `finished_at`, `status`, `exit_code` and
`message`, keeping `task_id`, `started_at`, `stdout_path` and
`stderr_path`; and a null message argument preserves the row's stored
message (`COALESCE`). -/
theorem recordRunEnd_frame (runs : List Run) (runId : Nat)
    (finishedAt status : String) (exitCode : Option Int) (msg : Option String) :
    List.Forall₂ (fun r r' =>
        (r.id ≠ runId → r' = r) ∧
        (r.id = runId →
          r'.id = r.id ∧ r'.task_id = r.task_id ∧ r'.started_at = r.started_at ∧
          r'.stdout_path = r.stdout_path ∧ r'.stderr_path = r.stderr_path ∧
          r'.finished_at = some finishedAt ∧ r'.status = status ∧
          r'.exit_code = exitCode ∧
          (msg = none → r'.message = r.message) ∧
          (∀ m, msg = some m → r'.message = some m)))
      runs (recordRunEnd runs runId finishedAt status exitCode msg) := by
  unfold recordRunEnd
  induction runs with
  | nil => exact List.Forall₂.nil
  | cons a l ih =>
    refine List.Forall₂.cons ?_ ih
    dsimp only
    by_cases h : a.id = runId
    · rw [if_pos h]
      refine ⟨fun hne => absurd h hne,
        fun _ => ⟨rfl, rfl, rfl, rfl, rfl, rfl, rfl, rfl, ?_, ?_⟩⟩
      · intro hm
        subst hm
        rfl
      · intro m hm
        subst hm
        rfl
    · rw [if_neg h]
      exact ⟨fun _ => rfl, fun heq => absurd heq h⟩

/-- C10 witness: the frame property applied to a concrete two-row table,
extracting that the non-target row is unchanged and the target row keeps
its stored message under a null message argument. -/
theorem recordRunEnd_frame_witness :
    recordRunEnd
        [⟨1, 1, "2024-01-01T00:00:00", none, "running", none, none, none,
          some "keep"⟩,
         ⟨2, 1, "2024-01-01T00:01:00", none, "running", none, none, none, none⟩]
        1 "2024-01-01T00:00:09" "success" (some 0) none =
      [⟨1, 1, "2024-01-01T00:00:00", some "2024-01-01T00:00:09", "success",
          some 0, none, none, some "keep"⟩,
       ⟨2, 1, "2024-01-01T00:01:00", none, "running", none, none, none, none⟩] := by
  have h := recordRunEnd_frame
    [⟨1, 1, "2024-01-01T00:00:00", none, "running", none, none, none, some "keep"⟩,
     ⟨2, 1, "2024-01-01T00:01:00", none, "running", none, none, none, none⟩]
    1 "2024-01-01T00:00:09" "success" (some 0) none
  cases h with
  | cons h1 htail =>
    cases htail with
    | cons h2 _ =>
      have e2 := h1.2 rfl
      have e1 := h2.1 (by decide)
      decide

theorem runningCount_append (runs rows : List Run) (tid : Nat) :
    runningCount (runs ++ rows) tid = runningCount runs tid + runningCount rows tid := by
  unfold runningCount
  rw [List.filter_append, List.length_append]

theorem length_filter_map_le (l : List Run) (f : Run → Run) (p : Run → Bool)
    (h : ∀ a ∈ l, p (f a) = true → p a = true) :
    ((l.map f).filter p).length ≤ (l.filter p).length := by
  induction l with
  | nil => exact Nat.le_refl _
  | cons a t ih =>
    have ih' := ih (fun b hb => h b (List.mem_cons_of_mem a hb))
    have ha := h a (List.mem_cons_self a t)
    rw [List.map_cons, List.filter_cons, List.filter_cons]
    cases hfa : p (f a)
    · cases hpa : p a
      · simpa [hfa, hpa] using ih'
      · simp only [hpa, if_pos]
        simp only [List.length_cons]
        exact le_trans ih' (Nat.le_succ _)
    · rw [ha hfa]
      simpa [hfa] using ih'

theorem fireStep_count_le (runs : List Run) (tid : Nat) (startedAt : String)
    (h : ∀ t, runningCount runs t ≤ 1) :
    ∀ t, runningCount (fireStep runs tid startedAt) t ≤ 1 := by
  intro t
  unfold fireStep
  split
  · exact h t
  · rename_i hlt
    have hz : runningCount runs tid = 0 := by
      unfold maxInstances at hlt
      omega
    unfold recordRunStart
    dsimp only
    rw [runningCount_append]
    by_cases ht : t = tid
    · subst ht
      rw [hz]
      simp [runningCount]
    · have hbeq : (tid == t) = false :=
        beq_eq_false_iff_ne.mpr (fun hh => ht hh.symm)
      have : runningCount
          [⟨nextRunId runs, tid, startedAt, none, "running", none, none, none, none⟩] t = 0 := by
        simp [runningCount, List.filter, hbeq]
      rw [this]
      simpa using h t

theorem finishStep_count_le (runs : List Run) (tid : Nat) (finishedAt : String)
    (code : Int) (h : ∀ t, runningCount runs t ≤ 1) :
    ∀ t, runningCount (finishStep runs tid finishedAt code) t ≤ 1 := by
  intro t
  unfold finishStep
  cases hf : runs.find? (fun r => r.task_id == tid && r.status == "running")
  · exact h t
  · rename_i r
    refine le_trans ?_ (h t)
    unfold recordRunEnd runningCount
    apply length_filter_map_le
    intro a _ hpa
    by_cases hid : a.id = r.id
    · rw [if_pos hid] at hpa
      dsimp only at hpa
      rw [Bool.and_eq_true] at hpa
      rcases hpa with ⟨_, hs⟩
      split at hs
      · exact absurd hs (by decide)
      · exact absurd hs (by decide)
    · rw [if_neg hid] at hpa
      exact hpa

/-- C3: per-task run exclusivity under the modelled trigger runtime: for
every event history starting from an empty run table, no task ever has
more than one `"running"` row, and a fire arriving while the task's
prior run is unfinished (its running-row count already at
`max_instances`) is dropped — the state is unchanged, nothing is
queued. -/
theorem exclusivity_per_task (events : List FireEvent) (tid : Nat) :
    runningCount (applyEvents events) tid ≤ 1
    ∧ (∀ runs t startedAt, maxInstances ≤ runningCount runs t →
        fireStep runs t startedAt = runs) := by
  constructor
  · have main : ∀ (evs : List FireEvent) (runs : List Run),
        (∀ t, runningCount runs t ≤ 1) →
        ∀ t, runningCount (List.foldl execStep runs evs) t ≤ 1 := by
      intro evs
      induction evs with
      | nil =>
        intro runs h t
        exact h t
      | cons e es ih =>
        intro runs h t
        rw [List.foldl_cons]
        refine ih (execStep runs e) ?_ t
        cases e with
        | fire tid2 s => exact fireStep_count_le runs tid2 s h
        | finish tid2 f c => exact finishStep_count_le runs tid2 f c h
    exact main events [] (fun t => by simp [runningCount]) tid
  · intro runs t startedAt hle
    unfold fireStep
    rw [if_pos hle]

/-- C3 witness: with one run of task 7 still `"running"`, a second fire
for task 7 is dropped and the run table is unchanged. -/
theorem exclusivity_per_task_witness :
    fireStep [⟨1, 7, "2024-01-01T00:00:00", none, "running", none, none, none, none⟩]
        7 "2024-01-01T00:01:00" =
      [⟨1, 7, "2024-01-01T00:00:00", none, "running", none, none, none, none⟩] :=
  (exclusivity_per_task [] 7).2
    [⟨1, 7, "2024-01-01T00:00:00", none, "running", none, none, none, none⟩]
    7 "2024-01-01T00:01:00" (by decide)

theorem charListLe_total (a b : List Char) :
    charListLe a b = true ∨ charListLe b a = true := by
  induction a generalizing b with
  | nil => exact Or.inl rfl
  | cons x xs ih =>
    cases b with
    | nil => exact Or.inr rfl
    | cons y ys =>
      by_cases hxy : x < y
      · left
        simp [charListLe, hxy]
      · by_cases hyx : y < x
        · right
          simp [charListLe, hyx]
        · have hcb : charListLe (x :: xs) (y :: ys) = charListLe xs ys := by
            simp [charListLe, hxy, hyx]
          have hbc : charListLe (y :: ys) (x :: xs) = charListLe ys xs := by
            simp [charListLe, hxy, hyx]
          rw [hcb, hbc]
          exact ih ys

theorem charListLe_trans (a b c : List Char) (hab : charListLe a b = true)
    (hbc : charListLe b c = true) : charListLe a c = true := by
  induction a generalizing b c with
  | nil => rfl
  | cons x xs ih =>
    cases b with
    | nil => exact absurd hab (by simp [charListLe])
    | cons y ys =>
      cases c with
      | nil => exact absurd hbc (by simp [charListLe])
      | cons z zs =>
        by_cases hxy : x < y
        · by_cases hyz : y < z
          · simp [charListLe, lt_trans hxy hyz]
          · by_cases hzy : z < y
            · exact absurd hbc (by simp [charListLe, hyz, hzy])
            · have : y = z := le_antisymm (not_lt.mp hzy) (not_lt.mp hyz)
              subst this
              simp [charListLe, hxy]
        · by_cases hyx : y < x
          · exact absurd hab (by simp [charListLe, hxy, hyx])
          · have hxyeq : x = y := le_antisymm (not_lt.mp hyx) (not_lt.mp hxy)
            subst hxyeq
            rw [show charListLe (x :: xs) (x :: ys) = charListLe xs ys by
              simp [charListLe]] at hab
            by_cases hxz : x < z
            · simp [charListLe, hxz]
            · by_cases hzx : z < x
              · exact absurd hbc (by simp [charListLe, hxz, hzx])
              · rw [show charListLe (x :: ys) (z :: zs) = charListLe ys zs by
                  simp [charListLe, hxz, hzx]] at hbc
                rw [show charListLe (x :: xs) (z :: zs) = charListLe xs zs by
                  simp [charListLe, hxz, hzx]]
                exact ih ys zs hab hbc

theorem strLe_total (a b : String) : strLe a b = true ∨ strLe b a = true :=
  charListLe_total a.data b.data

theorem strLe_trans (a b c : String) (hab : strLe a b = true)
    (hbc : strLe b c = true) : strLe a c = true :=
  charListLe_trans a.data b.data c.data hab hbc

theorem mem_insertByStartDesc (p x : Run × String) (l : List (Run × String)) :
    x ∈ insertByStartDesc p l ↔ x = p ∨ x ∈ l := by
  induction l with
  | nil => simp [insertByStartDesc]
  | cons q qs ih =>
    unfold insertByStartDesc
    split
    · simp [or_comm, or_left_comm]
    · simp only [List.mem_cons, ih]
      tauto

theorem mem_sortByStartDesc (x : Run × String) (l : List (Run × String))
    (h : x ∈ sortByStartDesc l) : x ∈ l := by
  induction l with
  | nil => exact absurd h (by simp [sortByStartDesc])
  | cons q qs ih =>
    unfold sortByStartDesc at h
    rcases (mem_insertByStartDesc q x (sortByStartDesc qs)).mp h with rfl | hx
    · exact List.mem_cons_self _ _
    · exact List.mem_cons_of_mem _ (ih hx)

theorem pairwise_insertByStartDesc (p : Run × String) (l : List (Run × String))
    (h : l.Pairwise (fun a b => strLe b.1.started_at a.1.started_at = true)) :
    (insertByStartDesc p l).Pairwise
      (fun a b => strLe b.1.started_at a.1.started_at = true) := by
  induction l with
  | nil => simp [insertByStartDesc]
  | cons q qs ih =>
    unfold insertByStartDesc
    split
    · rename_i hc
      refine List.Pairwise.cons ?_ h
      intro b hb
      rcases List.mem_cons.mp hb with rfl | hb
      · exact hc
      · exact strLe_trans _ _ _ (List.rel_of_pairwise_cons h hb) hc
    · rename_i hc
      refine List.Pairwise.cons ?_ (ih h.of_cons)
      intro b hb
      rcases (mem_insertByStartDesc p b qs).mp hb with rfl | hb
      · rcases strLe_total q.1.started_at b.1.started_at with hqb | hbq
        · exact absurd hqb (by simpa using hc)
        · exact hbq
      · exact List.rel_of_pairwise_cons h hb

theorem pairwise_sortByStartDesc (l : List (Run × String)) :
    (sortByStartDesc l).Pairwise
      (fun a b => strLe b.1.started_at a.1.started_at = true) := by
  induction l with
  | nil => exact List.Pairwise.nil
  | cons q qs ih => exact pairwise_insertByStartDesc q (sortByStartDesc qs) ih

/-- C4 (counterexample): the name filter is applied only under Python
truthiness, so a given-but-empty task name does not restrict the result.
With a task named `""` (id 1) and a task `"x"` (id 2) each owning one
run, `recent_runs(limit=10, task_name="")` still returns the run of
`"x"`, a task other than the one named `""`. -/
theorem recentRuns_empty_name_unfiltered :
    ∃ p ∈ recentRuns
        [⟨1, "", "/tmp/a.py", "0 0 * * *", none, none, "t"⟩,
         ⟨2, "x", "/tmp/b.py", "0 0 * * *", none, none, "t"⟩]
        [⟨1, 1, "2024-01-01T00:00:00", none, "running", none, none, none, none⟩,
         ⟨2, 2, "2024-01-02T00:00:00", none, "running", none, none, none, none⟩]
        10 (some ""), p.2 ≠ "" := by
  refine ⟨(⟨2, 2, "2024-01-02T00:00:00", none, "running", none, none, none, none⟩, "x"),
    ?_, by decide⟩
  decide

/-- C4 (amended): `recent_runs` returns at most `limit` rows, ordered
most-recent-start-first (non-increasing `started_at` under the store's
text comparison of the ISO timestamps), and restricted to the named
task whenever a nonempty task name is given (the empty string, like no
name at all, applies no filter). -/
theorem recentRuns_ordered_limited (tasks : List Task) (runs : List Run)
    (limit : Nat) (taskName : Option String) :
    (recentRuns tasks runs limit taskName).length ≤ limit
    ∧ (recentRuns tasks runs limit taskName).Pairwise
        (fun a b => strLe b.1.started_at a.1.started_at = true)
    ∧ (∀ s, taskName = some s → s ≠ "" →
        ∀ p ∈ recentRuns tasks runs limit taskName, p.2 = s) := by
  refine ⟨?_, ?_, ?_⟩
  · unfold recentRuns
    rw [List.length_take]
    exact min_le_left _ _
  · exact List.Pairwise.sublist (List.take_sublist _ _)
      (pairwise_sortByStartDesc (filteredRuns tasks runs taskName))
  · intro s hs hne p hp
    subst hs
    unfold recentRuns at hp
    have hp2 := mem_sortByStartDesc p _ (List.mem_of_mem_take hp)
    unfold filteredRuns at hp2
    dsimp only at hp2
    rw [if_neg hne] at hp2
    have := List.mem_filter.mp hp2
    simpa using this.2

/-- C4 witness: the restriction and bounds applied at a concrete store
with the nonempty name `"x"`. -/
theorem recentRuns_ordered_limited_witness :
    ∀ p ∈ recentRuns [⟨2, "x", "/tmp/b.py", "0 0 * * *", none, none, "t"⟩]
        [⟨1, 2, "2024-01-01T00:00:00", none, "running", none, none, none, none⟩]
        5 (some "x"), p.2 = "x" :=
  (recentRuns_ordered_limited [⟨2, "x", "/tmp/b.py", "0 0 * * *", none, none, "t"⟩]
      [⟨1, 2, "2024-01-01T00:00:00", none, "running", none, none, none, none⟩]
      5 (some "x")).2.2 "x" rfl (by decide)

theorem hasName_iff (names : List String) (n : String) :
    hasName names n = true ↔ n ∈ names := by
  simp [hasName, List.any_eq_true]

theorem lookupName_eq_none (n : String) (l : List (String × String)) :
    lookupName n l = none ↔ ∀ p ∈ l, p.1 ≠ n := by
  induction l with
  | nil => simp [lookupName]
  | cons p ps ih =>
    unfold lookupName
    by_cases hp : p.1 = n
    · simp [hp]
    · simp [hp, ih]

theorem lookupName_append_single (n m c : String) (l : List (String × String)) :
    lookupName n (l ++ [(m, c)]) =
      match lookupName n l with
      | some v => some v
      | none => if m = n then some c else none := by
  induction l with
  | nil => simp [lookupName]
  | cons p ps ih =>
    rw [List.cons_append]
    unfold lookupName
    by_cases hp : p.1 = n
    · simp [hp]
    · simp only [if_neg hp]
      exact ih

theorem lookupName_update (n m c : String) (l : List (String × String)) :
    lookupName n (l.map (fun p => if p.1 = m then (m, c) else p)) =
      if n = m then (lookupName n l).map (fun _ => c) else lookupName n l := by
  induction l with
  | nil => by_cases h : n = m <;> simp [lookupName, h]
  | cons p ps ih =>
    rw [List.map_cons]
    by_cases hp : p.1 = m
    · rw [if_pos hp]
      by_cases hnm : n = m
      · subst hnm
        unfold lookupName
        rw [if_pos hp]
        simp
      · have hmn : ¬ m = n := fun hh => hnm hh.symm
        have hpn : ¬ p.1 = n := fun hh => hnm (hh.symm.trans hp)
        unfold lookupName
        rw [if_neg hpn]
        show (if m = n then some c else _) = _
        rw [if_neg hmn, if_neg hnm, ih, if_neg hnm]
    · rw [if_neg hp]
      unfold lookupName
      by_cases hpn : p.1 = n
      · have hnm : ¬ n = m := fun hh => hp (hpn.trans hh)
        simp [hpn, hnm]
      · simp [hpn, ih]

theorem taskMap_lookup_none_iff (n : String) (tasks : List Task) :
    lookupName n (taskMap tasks) = none ↔ n ∉ tasks.map Task.name := by
  rw [lookupName_eq_none]
  unfold taskMap
  constructor
  · intro hall hn
    rcases List.mem_map.mp hn with ⟨t, ht, hname⟩
    exact hall (t.name, t.cron) (List.mem_map_of_mem _ ht) hname
  · intro hn p hp
    rcases List.mem_map.mp hp with ⟨t, ht, rfl⟩
    intro hname
    exact hn (hname ▸ List.mem_map_of_mem Task.name ht)

theorem taskMap_lookup_mem (tasks : List Task) (h : (tasks.map Task.name).Nodup)
    (t : Task) (ht : t ∈ tasks) :
    lookupName t.name (taskMap tasks) = some t.cron := by
  induction tasks with
  | nil => cases ht
  | cons u ts ih =>
    rw [List.map_cons, List.nodup_cons] at h
    rcases List.mem_cons.mp ht with rfl | ht'
    · unfold taskMap lookupName
      rw [List.map_cons]
      simp [lookupName]
    · have hne : u.name ≠ t.name :=
        fun hh => h.1 (hh ▸ List.mem_map_of_mem Task.name ht')
      unfold taskMap lookupName
      rw [List.map_cons]
      show (if u.name = t.name then _ else lookupName t.name (taskMap ts)) = _
      rw [if_neg hne]
      exact ih h.2 ht'

theorem addJobs_cons_none (t : Task) (ts : List Task) (sched : List (String × String))
    (hl : lookupName t.name sched = none) :
    addJobs (t :: ts) sched =
      ((addJobs ts (sched ++ [(t.name, t.cron)])).1,
        SchedAction.install t.name :: (addJobs ts (sched ++ [(t.name, t.cron)])).2) := by
  simp [addJobs, hl]

theorem addJobs_cons_same (t : Task) (ts : List Task) (sched : List (String × String))
    (c : String) (hl : lookupName t.name sched = some c) (hc : c = t.cron) :
    addJobs (t :: ts) sched = addJobs ts sched := by
  simp [addJobs, hl, hc]

theorem addJobs_cons_diff (t : Task) (ts : List Task) (sched : List (String × String))
    (c : String) (hl : lookupName t.name sched = some c) (hc : c ≠ t.cron) :
    addJobs (t :: ts) sched =
      ((addJobs ts (sched.map (fun p => if p.1 = t.name then (t.name, t.cron) else p))).1,
        SchedAction.reschedule t.name ::
          (addJobs ts (sched.map (fun p => if p.1 = t.name then (t.name, t.cron) else p))).2) := by
  simp [addJobs, hl, hc]

theorem keys_update (l : List (String × String)) (m c : String) :
    (l.map (fun p => if p.1 = m then (m, c) else p)).map Prod.fst = l.map Prod.fst := by
  induction l with
  | nil => rfl
  | cons p ps ih =>
    rw [List.map_cons, List.map_cons, List.map_cons]
    by_cases hp : p.1 = m
    · rw [if_pos hp]
      rw [ih]
      show m :: _ = p.1 :: _
      rw [hp]
    · rw [if_neg hp, ih]

theorem addJobs_keys (ts : List Task) (sched : List (String × String)) :
    ∀ p ∈ (addJobs ts sched).1,
      p.1 ∈ sched.map Prod.fst ∨ p.1 ∈ ts.map Task.name := by
  induction ts generalizing sched with
  | nil =>
    intro p hp
    exact Or.inl (List.mem_map_of_mem Prod.fst hp)
  | cons t ts ih =>
    intro p hp
    rw [List.map_cons]
    cases hl : lookupName t.name sched with
    | none =>
      rw [addJobs_cons_none t ts sched hl] at hp
      dsimp only at hp
      rcases ih (sched ++ [(t.name, t.cron)]) p hp with hk | hk
      · rw [List.map_append] at hk
        rcases List.mem_append.mp hk with hk | hk
        · exact Or.inl hk
        · simp only [List.map_cons, List.map_nil, List.mem_singleton] at hk
          exact Or.inr (hk ▸ List.mem_cons_self _ _)
      · exact Or.inr (List.mem_cons_of_mem _ hk)
    | some c =>
      by_cases hc : c = t.cron
      · rw [addJobs_cons_same t ts sched c hl hc] at hp
        rcases ih sched p hp with hk | hk
        · exact Or.inl hk
        · exact Or.inr (List.mem_cons_of_mem _ hk)
      · rw [addJobs_cons_diff t ts sched c hl hc] at hp
        dsimp only at hp
        rcases ih _ p hp with hk | hk
        · rw [keys_update] at hk
          exact Or.inl hk
        · exact Or.inr (List.mem_cons_of_mem _ hk)

theorem addJobs_lookup (ts : List Task) (sched : List (String × String))
    (h : (ts.map Task.name).Nodup) (n : String) :
    lookupName n (addJobs ts sched).1 =
      match lookupName n (taskMap ts) with
      | some c => some c
      | none => lookupName n sched := by
  induction ts generalizing sched with
  | nil => rfl
  | cons t ts ih =>
    rw [List.map_cons, List.nodup_cons] at h
    have htm : lookupName n (taskMap (t :: ts)) =
        if t.name = n then some t.cron else lookupName n (taskMap ts) := rfl
    have htnone : lookupName t.name (taskMap ts) = none :=
      (taskMap_lookup_none_iff t.name ts).mpr h.1
    cases hl : lookupName t.name sched with
    | none =>
      rw [addJobs_cons_none t ts sched hl]
      dsimp only
      rw [ih _ h.2, htm]
      by_cases htn : t.name = n
      · subst htn
        rw [htnone, if_pos rfl, lookupName_append_single, hl, if_pos rfl]
      · rw [if_neg htn]
        cases hts : lookupName n (taskMap ts)
        · rw [lookupName_append_single, if_neg htn]
          cases lookupName n sched <;> rfl
        · rfl
    | some c =>
      by_cases hc : c = t.cron
      · rw [addJobs_cons_same t ts sched c hl hc]
        rw [ih _ h.2, htm]
        by_cases htn : t.name = n
        · subst htn
          rw [htnone, if_pos rfl, hl, hc]
        · rw [if_neg htn]
      · rw [addJobs_cons_diff t ts sched c hl hc]
        dsimp only
        rw [ih _ h.2, htm]
        by_cases htn : t.name = n
        · subst htn
          rw [htnone, if_pos rfl, lookupName_update, if_pos rfl, hl]
          rfl
        · rw [if_neg htn]
          cases hts : lookupName n (taskMap ts)
          · rw [lookupName_update, if_neg (fun hh => htn hh.symm)]
          · rfl

theorem addJobs_noop (ts : List Task) (sched : List (String × String))
    (h : ∀ t ∈ ts, lookupName t.name sched = some t.cron) :
    addJobs ts sched = (sched, []) := by
  induction ts with
  | nil => rfl
  | cons t ts ih =>
    rw [addJobs_cons_same t ts sched t.cron (h t (List.mem_cons_self t ts)) rfl]
    exact ih (fun u hu => h u (List.mem_cons_of_mem t hu))

/-- C7: the reconciliation pass is idempotent: after one
`_synchronise_jobs` pass, the `_scheduled_cron` map agrees (as a map)
with the store's name-to-cron mapping, and running the pass again on
that state performs no installs, removals or reschedules and leaves the
map unchanged. -/
theorem synchroniseJobs_idempotent (tasks : List Task)
    (sched : List (String × String)) (h : (tasks.map Task.name).Nodup) :
    (∀ n, lookupName n (synchroniseJobs tasks sched).1 =
        lookupName n (taskMap tasks))
    ∧ synchroniseJobs tasks (synchroniseJobs tasks sched).1 =
        ((synchroniseJobs tasks sched).1, []) := by
  have hlook : ∀ n, lookupName n (synchroniseJobs tasks sched).1 =
      lookupName n (taskMap tasks) := by
    intro n
    show lookupName n
        (addJobs tasks (sched.filter (fun p => hasName (tasks.map Task.name) p.1))).1 = _
    rw [addJobs_lookup tasks _ h n]
    cases hm : lookupName n (taskMap tasks) with
    | some c => rfl
    | none =>
      have hnn : n ∉ tasks.map Task.name := (taskMap_lookup_none_iff n tasks).mp hm
      apply (lookupName_eq_none n _).mpr
      intro p hp hpn
      exact hnn (hpn ▸ (hasName_iff _ _).mp (List.mem_filter.mp hp).2)
  have hkeys : ∀ p ∈ (synchroniseJobs tasks sched).1, p.1 ∈ tasks.map Task.name := by
    intro p hp
    rcases addJobs_keys tasks _ p hp with hk | hk
    · rcases List.mem_map.mp hk with ⟨q, hq, hfst⟩
      exact hfst ▸ (hasName_iff _ _).mp (List.mem_filter.mp hq).2
    · exact hk
  refine ⟨hlook, ?_⟩
  have hfilterT : (synchroniseJobs tasks sched).1.filter
      (fun p => hasName (tasks.map Task.name) p.1) = (synchroniseJobs tasks sched).1 :=
    List.filter_eq_self.mpr (fun p hp => (hasName_iff _ _).mpr (hkeys p hp))
  have hfilterF : (synchroniseJobs tasks sched).1.filter
      (fun p => !(hasName (tasks.map Task.name) p.1)) = [] := by
    rw [List.filter_eq_nil_iff]
    intro p hp
    have hhas := (hasName_iff (tasks.map Task.name) p.1).mpr (hkeys p hp)
    simp [hhas]
  have hnoop : addJobs tasks (synchroniseJobs tasks sched).1 =
      ((synchroniseJobs tasks sched).1, []) :=
    addJobs_noop tasks _
      (fun t ht => by rw [hlook t.name, taskMap_lookup_mem tasks h t ht])
  show ((addJobs tasks ((synchroniseJobs tasks sched).1.filter
        (fun p => hasName (tasks.map Task.name) p.1))).1,
      ((synchroniseJobs tasks sched).1.filter
          (fun p => !(hasName (tasks.map Task.name) p.1))).map
          (fun p => SchedAction.remove p.1) ++
        (addJobs tasks ((synchroniseJobs tasks sched).1.filter
          (fun p => hasName (tasks.map Task.name) p.1))).2) =
      ((synchroniseJobs tasks sched).1, [])
  rw [hfilterT, hfilterF, hnoop]
  rfl

/-- C7 witness: one pass from an empty map over a one-task store,
followed by a second pass that performs nothing. -/
theorem synchroniseJobs_idempotent_witness :
    synchroniseJobs [⟨1, "demo", "/tmp/demo.py", "0 0 * * *", none, none, "t0"⟩]
        (synchroniseJobs [⟨1, "demo", "/tmp/demo.py", "0 0 * * *", none, none, "t0"⟩] []).1 =
      ((synchroniseJobs [⟨1, "demo", "/tmp/demo.py", "0 0 * * *", none, none, "t0"⟩] []).1,
        []) :=
  (synchroniseJobs_idempotent
      [⟨1, "demo", "/tmp/demo.py", "0 0 * * *", none, none, "t0"⟩] [] (by decide)).2

end ScriptManager
